import Mathlib

/-!
Shallow embedding of the multiple-testing-correction routines
`benji_hoch` and `bonf` of `4_ProteinFucciPsuedotime.py`, and of the
CCD-transcript gating of `5_RNACellCyclePsuedotime.py`, from the
SingleCellProteogenomics repository.

Modelling conventions:
* floating-point numbers are modelled as exact rationals `ℚ`;
* a float that may be NaN is modelled as `Option ℚ`, with `none` for NaN
  (`np.nan_to_num(pvals, nan=1)` becomes `nanToNum`);
* numpy arrays are Lean lists; elementwise array operations are `List.map`
  / `List.zipWith`; fancy-indexing reads (`np.take`) and scatter writes
  (`a[sortind] = vals`) are `takeIdx` and `scatter`;
* `np.argsort` is modelled as a stable sort of the index list by value
  (`List.insertionSort`);
* Python exceptions are modelled with `Except` (`bonf` raises
  `ZeroDivisionError` on an empty input because of `alpha / float(0)`).
-/

namespace SCP

/-- One float p-value; `none` models NaN. -/
abbrev PVal := Option ℚ

/-- `np.nan_to_num(pvals, nan=1)`: replace NaN entries by 1. -/
def nanToNum (pvals : List PVal) : List ℚ :=
  pvals.map (fun p => p.getD 1)

/-- `np.argsort(p)`: a permutation of `0, …, n-1` listing the indices of `p`
in ascending order of value (modelled as a stable sort of the index list). -/
def argsort (p : List ℚ) : List ℕ :=
  List.insertionSort (fun i j => p.getD i 0 ≤ p.getD j 0) (List.range p.length)

/-- `np.take(p, idx)`. -/
def takeIdx (p : List ℚ) (idx : List ℕ) : List ℚ :=
  idx.map (fun i => p.getD i 0)

/-- `_ecdf(x) = np.arange(1, nobs+1)/float(nobs)` (only the length of `x`
matters). -/
def ecdf (n : ℕ) : List ℚ :=
  (List.range n).map (fun (k : ℕ) => ((k : ℚ) + 1) / n)

/-- `max(np.nonzero(reject)[0])`: the largest index holding `true`
(`0` if there is none; the source only evaluates it when `reject.any()`). -/
def rejectmax (r : List Bool) : ℕ :=
  (List.range r.length).foldl (fun acc k => if r.getD k false then k else acc) 0

/-- `if reject.any(): rejectmax = max(np.nonzero(reject)[0]);
reject[:rejectmax] = True`. -/
def fillReject (r : List Bool) : List Bool :=
  if r.any (fun b => b) then
    (List.range r.length).map (fun k => if k < rejectmax r then true else r.getD k false)
  else r

/-- `np.minimum.accumulate`, with a running minimum `m`. -/
def minAccumAux (m : ℚ) : List ℚ → List ℚ
  | [] => []
  | x :: xs => min m x :: minAccumAux (min m x) xs

/-- `np.minimum.accumulate`. -/
def minAccum : List ℚ → List ℚ
  | [] => []
  | x :: xs => x :: minAccumAux x xs

/-- `np.minimum.accumulate(l[::-1])[::-1]`: entry `k` becomes the minimum of
the suffix `l[k:]`. -/
def revMinAccum (l : List ℚ) : List ℚ :=
  (minAccum l.reverse).reverse

/-- `pvals_corrected[pvals_corrected > 1] = 1`. -/
def clip1 (l : List ℚ) : List ℚ :=
  l.map (fun x => if 1 < x then 1 else x)

/-- `out[idx] = vals` on a fresh `np.empty_like` array: position `idx[k]`
receives `vals[k]`, i.e. position `i` receives `vals[position of i in idx]`. -/
def scatter (idx : List ℕ) (vals : List α) (d : α) : List α :=
  (List.range idx.length).map (fun i => vals.getD (idx.indexOf i) d)

/-- `pvals_sortind = np.argsort(pvals)` (after the NaN replacement). -/
def pvals_sortind (pvals : List PVal) : List ℕ :=
  argsort (nanToNum pvals)

/-- `pvals_sorted = np.take(pvals, pvals_sortind)`. -/
def pvals_sorted (pvals : List PVal) : List ℚ :=
  takeIdx (nanToNum pvals) (pvals_sortind pvals)

/-- `ecdffactor = _ecdf(pvals_sorted)`. -/
def ecdffactor (pvals : List PVal) : List ℚ :=
  ecdf (nanToNum pvals).length

/-- `reject = pvals_sorted <= ecdffactor*alpha`, followed by the
`reject[:rejectmax] = True` fill (decisions in sorted order). -/
def reject_sorted (alpha : ℚ) (pvals : List PVal) : List Bool :=
  fillReject
    (List.zipWith (fun q e => decide (q ≤ e * alpha)) (pvals_sorted pvals) (ecdffactor pvals))

/-- `pvals_corrected_raw = pvals_sorted / ecdffactor`. -/
def pvals_corrected_raw (pvals : List PVal) : List ℚ :=
  List.zipWith (fun q e => q / e) (pvals_sorted pvals) (ecdffactor pvals)

/-- `pvals_corrected = np.minimum.accumulate(pvals_corrected_raw[::-1])[::-1]`
followed by `pvals_corrected[pvals_corrected > 1] = 1` (adjusted p-values in
sorted order). -/
def pvals_corrected (pvals : List PVal) : List ℚ :=
  clip1 (revMinAccum (pvals_corrected_raw pvals))

/-- `benji_hoch(alpha, pvals)`: Benjamini-Hochberg correction; returns
`(pvals_corrected_BH, reject_BH)`, both scattered back to input order. -/
def benji_hoch (alpha : ℚ) (pvals : List PVal) : List ℚ × List Bool :=
  (scatter (pvals_sortind pvals) (pvals_corrected pvals) 0,
   scatter (pvals_sortind pvals) (reject_sorted alpha pvals) false)

/-- `rejectBonf = pvals_sorted <= alphaBonf` with
`alphaBonf = alpha / float(len(pvals))` (sorted order). -/
def rejectBonf (alpha : ℚ) (pvals : List PVal) : List Bool :=
  (pvals_sorted pvals).map
    (fun q => decide (q ≤ alpha / ((nanToNum pvals).length : ℚ)))

/-- `pvals_correctedBonf = pvals_sorted * float(len(pvals))` (sorted order;
note: no clipping to 1). -/
def pvals_correctedBonf (pvals : List PVal) : List ℚ :=
  (pvals_sorted pvals).map (fun q => q * ((nanToNum pvals).length : ℚ))

/-- The result `bonf` computes when `len(pvals) > 0`: adjusted p-values and
reject decisions scattered back to input order. -/
def bonfCore (alpha : ℚ) (pvals : List PVal) : List ℚ × List Bool :=
  (scatter (pvals_sortind pvals) (pvals_correctedBonf pvals) 0,
   scatter (pvals_sortind pvals) (rejectBonf alpha pvals) false)

/-- `bonf(alpha, pvals)`: Bonferroni correction.  On an empty input the line
`alphaBonf = alpha / float(len(pvals))` divides by `0.0`, which raises a
`ZeroDivisionError` in Python; otherwise the result is `bonfCore`. -/
def bonf (alpha : ℚ) (pvals : List PVal) : Except String (List ℚ × List Bool) :=
  if pvals.length = 0 then Except.error "ZeroDivisionError: float division by zero"
  else Except.ok (bonfCore alpha pvals)

/-! ### Definitions from `5_RNACellCyclePsuedotime.py` (CCD gating) -/

/-- `MIN_MEAN_PERCVAR_DIFF_FROM_RANDOM = 0.08`. -/
def MIN_MEAN_PERCVAR_DIFF_FROM_RANDOM : ℚ := 8/100

/-- `alpha_ccd = 0.01`. -/
def alpha_ccd : ℚ := 1/100

/-- `pass_meandiff = mean_diff_from_rng > MIN_MEAN_PERCVAR_DIFF_FROM_RANDOM`. -/
def pass_meandiff (mean_diff_from_rng : List ℚ) : List Bool :=
  mean_diff_from_rng.map (fun d => decide (MIN_MEAN_PERCVAR_DIFF_FROM_RANDOM < d))

/-- `np.median` of a 1-D array: middle element of the sorted data, or the
average of the two middle elements when the length is even. -/
def npMedian (l : List ℚ) : ℚ :=
  if l.length % 2 = 1 then (List.insertionSort (· ≤ ·) l).getD (l.length / 2) 0
  else ((List.insertionSort (· ≤ ·) l).getD (l.length / 2 - 1) 0
        + (List.insertionSort (· ≤ ·) l).getD (l.length / 2) 0) / 2

/-- Column `f` of the permutation matrix
`percent_ccd_variance_rng : PERMUTATIONS × features`. -/
def matCol (rng : List (List ℚ)) (f : ℕ) : List ℚ :=
  rng.map (fun row => row.getD f 0)

/-- `gtpass_eq_percvar_adj = pass_eq_percvar_adj &
(percent_ccd_variance > np.median(percent_ccd_variance_rng, axis=0))`, where
`_, pass_eq_percvar_adj = bonf(alpha_ccd, ccd_var_comp_rng_wilcoxp)`; the
Wilcoxon p-values are a parameter, `scipy.stats.wilcoxon` itself being outside
the embedded core. -/
def gtpass_eq_percvar_adj (ccd_var_comp_rng_wilcoxp : List PVal)
    (percent_ccd_variance : List ℚ)
    (percent_ccd_variance_rng : List (List ℚ)) : List Bool :=
  List.zipWith (fun b c => b && c)
    (bonfCore alpha_ccd ccd_var_comp_rng_wilcoxp).2
    ((List.range percent_ccd_variance.length).map
      (fun f => decide (npMedian (matCol percent_ccd_variance_rng f)
        < percent_ccd_variance.getD f 0)))

/-- `ccdtranscript = pass_meandiff`: the flag the script declares and saves
(`output/pickles/ccdtranscript.npy`) as the set of CCD transcripts. -/
def ccdtranscript (mean_diff_from_rng : List ℚ) : List Bool :=
  pass_meandiff mean_diff_from_rng

/-! ### Permuted inputs -/

/-- The σ-permuted copy of a list: entry `i` of the result is entry `σ i` of
`l` (σ given as the list `[σ 0, …, σ (n-1)]`). -/
def applyPerm (σ : List ℕ) (l : List α) (d : α) : List α :=
  σ.map (fun k => l.getD k d)

/-! ### Heap-passing model for the frame claim -/

/-- A heap of float arrays — the only mutable objects relevant to the frame
claim; a reference is an index into the heap. numpy Bool arrays have a
different dtype and can never alias the caller's float array, so they are
kept as pure values. -/
abbrev NpHeap := List (List PVal)

/-- Heap-passing version of `benji_hoch`; the caller's array lives at index
`r`. The line `pvals = np.nan_to_num(pvals, nan=1)` allocates a fresh array
(numpy default `copy=True`) and rebinds the local name; every later numpy
call only reads arrays and allocates fresh ones, and the only fancy-index
write in input order (`pvals_corrected_BH[pvals_sortind] = ...`) targets the
freshly `np.empty_like`-allocated array. Returns the final heap, a reference
to the adjusted-p array, and the reject values. -/
def benji_hochST (alpha : ℚ) (st : NpHeap) (r : ℕ) : NpHeap × (ℕ × List Bool) :=
  let callerArr := st.getD r []
  let st1 := st ++ [(nanToNum callerArr).map some]
  let st2 := st1 ++ [List.replicate callerArr.length (some 0)]
  let st3 := st2.set st1.length ((benji_hoch alpha callerArr).1.map some)
  (st3, (st1.length, (benji_hoch alpha callerArr).2))

/-- Heap-passing version of `bonf` (same write discipline; on the empty input
the `ZeroDivisionError` is raised after the `nan_to_num` copy and before any
write, so the heap then only carries the extra copy). -/
def bonfST (alpha : ℚ) (st : NpHeap) (r : ℕ) :
    NpHeap × Except String (ℕ × List Bool) :=
  let callerArr := st.getD r []
  let st1 := st ++ [(nanToNum callerArr).map some]
  if callerArr.length = 0 then
    (st1, Except.error "ZeroDivisionError: float division by zero")
  else
    let st2 := st1 ++ [List.replicate callerArr.length (some 0)]
    let st3 := st2.set st1.length ((bonfCore alpha callerArr).1.map some)
    (st3, Except.ok (st1.length, (bonfCore alpha callerArr).2))

end SCP

namespace SCP

/-! ### Generic list lemmas -/

lemma getD_map_of_lt (f : α → β) (l : List α) (d : α) (d' : β) {k : ℕ}
    (h : k < l.length) : (l.map f).getD k d' = f (l.getD k d) := by
  rw [List.getD_eq_getElem _ _ (by simpa using h), List.getD_eq_getElem _ _ h,
    List.getElem_map]

lemma getD_zipWith_of_lt (f : α → β → γ) (l₁ : List α) (l₂ : List β)
    (d₁ : α) (d₂ : β) (d₃ : γ) {k : ℕ} (h₁ : k < l₁.length) (h₂ : k < l₂.length) :
    (List.zipWith f l₁ l₂).getD k d₃ = f (l₁.getD k d₁) (l₂.getD k d₂) := by
  rw [List.getD_eq_getElem _ _ (by simp [List.length_zipWith]; omega),
    List.getD_eq_getElem _ _ h₁, List.getD_eq_getElem _ _ h₂, List.getElem_zipWith]

lemma map_getD_range (l : List α) (d : α) :
    (List.range l.length).map (fun i => l.getD i d) = l := by
  apply List.ext_getElem (by simp)
  intro i h₁ h₂
  simp only [List.getElem_map, List.getElem_range]
  rw [List.getD_eq_getElem _ _ h₂]

lemma getD_range_map_of_lt (f : ℕ → β) (d : β) {n k : ℕ} (h : k < n) :
    ((List.range n).map f).getD k d = f k := by
  rw [List.getD_eq_getElem _ _ (by simpa using h)]
  simp

/-! ### argsort -/

lemma argsort_perm (p : List ℚ) : (argsort p).Perm (List.range p.length) :=
  List.perm_insertionSort _ _

lemma length_argsort (p : List ℚ) : (argsort p).length = p.length := by
  simpa using (argsort_perm p).length_eq

lemma mem_argsort {p : List ℚ} {i : ℕ} : i ∈ argsort p ↔ i < p.length := by
  rw [(argsort_perm p).mem_iff, List.mem_range]

lemma nodup_argsort (p : List ℚ) : (argsort p).Nodup :=
  ((argsort_perm p).nodup_iff).mpr (List.nodup_range _)

lemma getD_argsort_lt {p : List ℚ} {k : ℕ} (h : k < p.length) :
    (argsort p).getD k 0 < p.length := by
  have hk : k < (argsort p).length := by rw [length_argsort]; exact h
  rw [List.getD_eq_getElem _ _ hk]
  exact mem_argsort.mp (List.getElem_mem hk)

lemma pairwise_argsort (p : List ℚ) :
    (argsort p).Pairwise (fun i j => p.getD i 0 ≤ p.getD j 0) := by
  haveI : IsTotal ℕ (fun i j => p.getD i 0 ≤ p.getD j 0) := ⟨fun a b => le_total _ _⟩
  haveI : IsTrans ℕ (fun i j => p.getD i 0 ≤ p.getD j 0) :=
    ⟨fun a b c hab hbc => le_trans hab hbc⟩
  exact List.sorted_insertionSort _ _

lemma indexOf_argsort_getD {p : List ℚ} {k : ℕ} (h : k < p.length) :
    (argsort p).indexOf ((argsort p).getD k 0) = k := by
  have hk : k < (argsort p).length := by rw [length_argsort]; exact h
  rw [List.getD_eq_getElem _ _ hk]
  exact List.indexOf_getElem (nodup_argsort p) _ _

lemma indexOf_argsort_lt {p : List ℚ} {i : ℕ} (h : i < p.length) :
    (argsort p).indexOf i < p.length := by
  rw [← length_argsort (p := p)]
  exact List.indexOf_lt_length.mpr (mem_argsort.mpr h)

lemma getD_argsort_indexOf {p : List ℚ} {i : ℕ} (h : i < p.length) :
    (argsort p).getD ((argsort p).indexOf i) 0 = i := by
  have hlt : (argsort p).indexOf i < (argsort p).length :=
    List.indexOf_lt_length.mpr (mem_argsort.mpr h)
  rw [List.getD_eq_getElem _ _ hlt]
  exact List.getElem_indexOf hlt

/-! ### scatter -/

lemma length_scatter (idx : List ℕ) (vals : List α) (d : α) :
    (scatter idx vals d).length = idx.length := by
  simp [scatter]

lemma getD_scatter (idx : List ℕ) (vals : List α) (d : α) {i : ℕ}
    (h : i < idx.length) :
    (scatter idx vals d).getD i d = vals.getD (idx.indexOf i) d := by
  unfold scatter
  exact getD_range_map_of_lt _ _ h

end SCP

namespace SCP

/-! ### Lengths and pointwise values of the pipeline pieces -/

lemma length_nanToNum (pvals : List PVal) : (nanToNum pvals).length = pvals.length :=
  List.length_map _ _

lemma length_pvals_sortind (pvals : List PVal) :
    (pvals_sortind pvals).length = pvals.length := by
  rw [pvals_sortind, length_argsort, length_nanToNum]

lemma length_pvals_sorted (pvals : List PVal) :
    (pvals_sorted pvals).length = pvals.length := by
  rw [pvals_sorted, takeIdx, List.length_map, length_pvals_sortind]

lemma length_ecdf (n : ℕ) : (ecdf n).length = n := by
  rw [ecdf, List.length_map, List.length_range]

lemma length_ecdffactor (pvals : List PVal) :
    (ecdffactor pvals).length = pvals.length := by
  rw [ecdffactor, length_ecdf, length_nanToNum]

lemma getD_ecdf {n k : ℕ} (h : k < n) : (ecdf n).getD k 0 = ((k : ℚ) + 1) / n := by
  rw [ecdf, getD_range_map_of_lt _ _ h]

lemma ecdf_getD_pos {n k : ℕ} (h : k < n) : 0 < (ecdf n).getD k 0 := by
  rw [getD_ecdf h]
  have hn : (0 : ℚ) < n := by exact_mod_cast Nat.zero_lt_of_lt h
  positivity

lemma getD_nanToNum {pvals : List PVal} {i : ℕ} (h : i < pvals.length) :
    (nanToNum pvals).getD i 0 = (pvals.getD i (some 0)).getD 1 :=
  getD_map_of_lt _ _ _ _ h

lemma getD_pvals_sorted {pvals : List PVal} {k : ℕ} (h : k < pvals.length) :
    (pvals_sorted pvals).getD k 0
      = (nanToNum pvals).getD ((pvals_sortind pvals).getD k 0) 0 := by
  rw [pvals_sorted, takeIdx]
  exact getD_map_of_lt _ _ 0 _ (by rw [length_pvals_sortind]; exact h)

lemma pvals_sorted_getD_indexOf {pvals : List PVal} {i : ℕ} (h : i < pvals.length) :
    (pvals_sorted pvals).getD ((pvals_sortind pvals).indexOf i) 0
      = (nanToNum pvals).getD i 0 := by
  have h' : i < (nanToNum pvals).length := by rw [length_nanToNum]; exact h
  have hidx : (pvals_sortind pvals).indexOf i < pvals.length := by
    have := indexOf_argsort_lt (p := nanToNum pvals) h'
    rw [length_nanToNum] at this
    exact this
  rw [getD_pvals_sorted hidx, pvals_sortind, getD_argsort_indexOf h']

lemma pvals_sorted_perm (pvals : List PVal) :
    (pvals_sorted pvals).Perm (nanToNum pvals) := by
  have h := (argsort_perm (nanToNum pvals)).map (fun i => (nanToNum pvals).getD i 0)
  rw [map_getD_range (nanToNum pvals) 0] at h
  exact h

lemma pairwise_pvals_sorted (pvals : List PVal) :
    (pvals_sorted pvals).Pairwise (· ≤ ·) := by
  exact (pairwise_argsort (nanToNum pvals)).map _ (fun a b hab => hab)

lemma pvals_sorted_mono {pvals : List PVal} {j k : ℕ} (hjk : j ≤ k)
    (hk : k < pvals.length) :
    (pvals_sorted pvals).getD j 0 ≤ (pvals_sorted pvals).getD k 0 := by
  rcases eq_or_lt_of_le hjk with rfl | hlt
  · exact le_refl _
  · have hk' : k < (pvals_sorted pvals).length := by rw [length_pvals_sorted]; exact hk
    have hj' : j < (pvals_sorted pvals).length := lt_trans hlt hk'
    rw [List.getD_eq_getElem _ _ hj', List.getD_eq_getElem _ _ hk']
    exact List.pairwise_iff_getElem.mp (pairwise_pvals_sorted pvals) j k hj' hk' hlt

/-! ### minAccum -/

lemma length_minAccumAux (m : ℚ) (l : List ℚ) :
    (minAccumAux m l).length = l.length := by
  induction l generalizing m with
  | nil => rfl
  | cons x xs ih => simp [minAccumAux, ih]

lemma length_minAccum (l : List ℚ) : (minAccum l).length = l.length := by
  cases l with
  | nil => rfl
  | cons x xs => simp [minAccum, length_minAccumAux]

lemma length_revMinAccum (l : List ℚ) : (revMinAccum l).length = l.length := by
  rw [revMinAccum, List.length_reverse, length_minAccum, List.length_reverse]

lemma length_clip1 (l : List ℚ) : (clip1 l).length = l.length := List.length_map _ _

lemma minAccumAux_le_acc {l : List ℚ} {m : ℚ} {k : ℕ} (h : k < l.length) :
    (minAccumAux m l).getD k 0 ≤ m := by
  induction l generalizing m k with
  | nil => simp at h
  | cons x xs ih =>
    cases k with
    | zero => simpa [minAccumAux] using min_le_left m x
    | succ k =>
      have hk : k < xs.length := by simpa using h
      calc (minAccumAux m (x :: xs)).getD (k + 1) 0
          = (minAccumAux (min m x) xs).getD k 0 := by simp [minAccumAux]
        _ ≤ min m x := ih hk
        _ ≤ m := min_le_left _ _

lemma minAccumAux_le {l : List ℚ} {m : ℚ} {j k : ℕ} (hjk : j ≤ k)
    (hk : k < l.length) : (minAccumAux m l).getD k 0 ≤ l.getD j 0 := by
  induction l generalizing m j k with
  | nil => simp at hk
  | cons x xs ih =>
    cases k with
    | zero =>
      interval_cases j
      simpa [minAccumAux] using min_le_right m x
    | succ k =>
      have hk' : k < xs.length := by simpa using hk
      cases j with
      | zero =>
        calc (minAccumAux m (x :: xs)).getD (k + 1) 0
            = (minAccumAux (min m x) xs).getD k 0 := by simp [minAccumAux]
          _ ≤ min m x := minAccumAux_le_acc hk'
          _ ≤ x := min_le_right _ _
          _ = (x :: xs).getD 0 0 := rfl
      | succ j =>
        have hjk' : j ≤ k := Nat.succ_le_succ_iff.mp hjk
        calc (minAccumAux m (x :: xs)).getD (k + 1) 0
            = (minAccumAux (min m x) xs).getD k 0 := by simp [minAccumAux]
          _ ≤ xs.getD j 0 := ih hjk' hk'
          _ = (x :: xs).getD (j + 1) 0 := by simp

lemma minAccumAux_anti {l : List ℚ} {m : ℚ} {j k : ℕ} (hjk : j ≤ k)
    (hk : k < l.length) :
    (minAccumAux m l).getD k 0 ≤ (minAccumAux m l).getD j 0 := by
  induction l generalizing m j k with
  | nil => simp at hk
  | cons x xs ih =>
    cases k with
    | zero =>
      interval_cases j
      exact le_refl _
    | succ k =>
      have hk' : k < xs.length := by simpa using hk
      cases j with
      | zero =>
        calc (minAccumAux m (x :: xs)).getD (k + 1) 0
            = (minAccumAux (min m x) xs).getD k 0 := by simp [minAccumAux]
          _ ≤ min m x := minAccumAux_le_acc hk'
          _ = (minAccumAux m (x :: xs)).getD 0 0 := by simp [minAccumAux]
      | succ j =>
        have hjk' : j ≤ k := Nat.succ_le_succ_iff.mp hjk
        calc (minAccumAux m (x :: xs)).getD (k + 1) 0
            = (minAccumAux (min m x) xs).getD k 0 := by simp [minAccumAux]
          _ ≤ (minAccumAux (min m x) xs).getD j 0 := ih hjk' hk'
          _ = (minAccumAux m (x :: xs)).getD (j + 1) 0 := by simp [minAccumAux]

lemma le_minAccumAux {l : List ℚ} {m c : ℚ} {k : ℕ} (hk : k < l.length)
    (hm : c ≤ m) (hl : ∀ j, j ≤ k → c ≤ l.getD j 0) :
    c ≤ (minAccumAux m l).getD k 0 := by
  induction l generalizing m k with
  | nil => simp at hk
  | cons x xs ih =>
    cases k with
    | zero =>
      have hx : c ≤ x := hl 0 (le_refl 0)
      simpa [minAccumAux] using le_min hm hx
    | succ k =>
      have hk' : k < xs.length := by simpa using hk
      have hx : c ≤ x := hl 0 (Nat.zero_le _)
      have : c ≤ (minAccumAux (min m x) xs).getD k 0 :=
        ih hk' (le_min hm hx) (fun j hj => by
          have := hl (j + 1) (Nat.succ_le_succ hj)
          simpa using this)
      simpa [minAccumAux] using this

lemma minAccum_le {l : List ℚ} {j k : ℕ} (hjk : j ≤ k) (hk : k < l.length) :
    (minAccum l).getD k 0 ≤ l.getD j 0 := by
  cases l with
  | nil => simp at hk
  | cons x xs =>
    cases k with
    | zero =>
      interval_cases j
      simp [minAccum]
    | succ k =>
      have hk' : k < xs.length := by simpa using hk
      cases j with
      | zero =>
        calc (minAccum (x :: xs)).getD (k + 1) 0
            = (minAccumAux x xs).getD k 0 := by simp [minAccum]
          _ ≤ x := minAccumAux_le_acc hk'
          _ = (x :: xs).getD 0 0 := rfl
      | succ j =>
        have hjk' : j ≤ k := Nat.succ_le_succ_iff.mp hjk
        calc (minAccum (x :: xs)).getD (k + 1) 0
            = (minAccumAux x xs).getD k 0 := by simp [minAccum]
          _ ≤ xs.getD j 0 := minAccumAux_le hjk' hk'
          _ = (x :: xs).getD (j + 1) 0 := by simp

lemma minAccum_anti {l : List ℚ} {j k : ℕ} (hjk : j ≤ k) (hk : k < l.length) :
    (minAccum l).getD k 0 ≤ (minAccum l).getD j 0 := by
  cases l with
  | nil => simp at hk
  | cons x xs =>
    cases k with
    | zero =>
      interval_cases j
      exact le_refl _
    | succ k =>
      have hk' : k < xs.length := by simpa using hk
      cases j with
      | zero =>
        calc (minAccum (x :: xs)).getD (k + 1) 0
            = (minAccumAux x xs).getD k 0 := by simp [minAccum]
          _ ≤ x := minAccumAux_le_acc hk'
          _ = (minAccum (x :: xs)).getD 0 0 := by simp [minAccum]
      | succ j =>
        have hjk' : j ≤ k := Nat.succ_le_succ_iff.mp hjk
        calc (minAccum (x :: xs)).getD (k + 1) 0
            = (minAccumAux x xs).getD k 0 := by simp [minAccum]
          _ ≤ (minAccumAux x xs).getD j 0 := minAccumAux_anti hjk' hk'
          _ = (minAccum (x :: xs)).getD (j + 1) 0 := by simp [minAccum]

lemma le_minAccum {l : List ℚ} {c : ℚ} {k : ℕ} (hk : k < l.length)
    (hl : ∀ j, j ≤ k → c ≤ l.getD j 0) : c ≤ (minAccum l).getD k 0 := by
  cases l with
  | nil => simp at hk
  | cons x xs =>
    cases k with
    | zero => simpa [minAccum] using hl 0 (le_refl 0)
    | succ k =>
      have hk' : k < xs.length := by simpa using hk
      have hx : c ≤ x := hl 0 (Nat.zero_le _)
      have : c ≤ (minAccumAux x xs).getD k 0 :=
        le_minAccumAux hk' hx (fun j hj => by
          have := hl (j + 1) (Nat.succ_le_succ hj)
          simpa using this)
      simpa [minAccum] using this

end SCP

namespace SCP

/-! ### revMinAccum: suffix minima -/

lemma getD_revMinAccum {l : List ℚ} {k : ℕ} (hk : k < l.length) :
    (revMinAccum l).getD k 0 = (minAccum l.reverse).getD (l.length - 1 - k) 0 := by
  have hlen : (minAccum l.reverse).length = l.length := by
    rw [length_minAccum, List.length_reverse]
  have hk1 : k < (minAccum l.reverse).reverse.length := by
    rw [List.length_reverse, hlen]; exact hk
  have hk2 : l.length - 1 - k < (minAccum l.reverse).length := by rw [hlen]; omega
  rw [revMinAccum, List.getD_eq_getElem _ _ hk1, List.getD_eq_getElem _ _ hk2,
    List.getElem_reverse]
  congr 1
  omega

lemma getD_reverse_of_lt {l : List ℚ} {m : ℕ} (hm : m < l.length) :
    l.reverse.getD (l.length - 1 - m) 0 = l.getD m 0 := by
  have h1 : l.length - 1 - m < l.reverse.length := by
    rw [List.length_reverse]; omega
  rw [List.getD_eq_getElem _ _ h1, List.getD_eq_getElem _ _ hm, List.getElem_reverse]
  congr 1
  omega

lemma revMinAccum_le {l : List ℚ} {k m : ℕ} (hkm : k ≤ m) (hm : m < l.length) :
    (revMinAccum l).getD k 0 ≤ l.getD m 0 := by
  have hk : k < l.length := lt_of_le_of_lt hkm hm
  rw [getD_revMinAccum hk, ← getD_reverse_of_lt hm]
  exact minAccum_le (by omega) (by simp; omega)

lemma revMinAccum_mono {l : List ℚ} {j k : ℕ} (hjk : j ≤ k) (hk : k < l.length) :
    (revMinAccum l).getD j 0 ≤ (revMinAccum l).getD k 0 := by
  have hj : j < l.length := lt_of_le_of_lt hjk hk
  rw [getD_revMinAccum hj, getD_revMinAccum hk]
  exact minAccum_anti (by omega) (by simp; omega)

lemma le_revMinAccum {l : List ℚ} {c : ℚ} {k : ℕ} (hk : k < l.length)
    (h : ∀ m, k ≤ m → m < l.length → c ≤ l.getD m 0) :
    c ≤ (revMinAccum l).getD k 0 := by
  rw [getD_revMinAccum hk]
  apply le_minAccum (by simp; omega)
  intro j hj
  have hjlen : j < l.reverse.length := by simp; omega
  have hm : l.length - 1 - j < l.length := by omega
  have : l.reverse.getD j 0 = l.getD (l.length - 1 - j) 0 := by
    rw [← getD_reverse_of_lt hm]
    congr 1
    omega
  rw [this]
  exact h _ (by omega) hm

/-! ### clip1 -/

lemma getD_clip1 {l : List ℚ} {k : ℕ} (hk : k < l.length) :
    (clip1 l).getD k 0 = if 1 < l.getD k 0 then 1 else l.getD k 0 :=
  getD_map_of_lt _ _ _ _ hk

lemma clip1_mono_pt {a b : ℚ} (h : a ≤ b) :
    (if 1 < a then 1 else a) ≤ (if 1 < b then 1 else b) := by
  split_ifs with h1 h2 <;> linarith

/-! ### rejectmax and fillReject -/

lemma rejectmax_eq_aux (r : List Bool) :
    rejectmax r
      = (List.range r.length).foldl (fun acc k => if r.getD k false then k else acc) 0 :=
  rfl

lemma foldl_rejectmax_succ (r : List Bool) (n : ℕ) :
    (List.range (n + 1)).foldl (fun acc k => if r.getD k false then k else acc) 0
      = if r.getD n false then n
        else (List.range n).foldl (fun acc k => if r.getD k false then k else acc) 0 := by
  rw [List.range_succ, List.foldl_append]
  rfl

lemma le_foldl_rejectmax {r : List Bool} {n k : ℕ} (hk : k < n)
    (ht : r.getD k false = true) :
    k ≤ (List.range n).foldl (fun acc k => if r.getD k false then k else acc) 0 := by
  induction n with
  | zero => omega
  | succ n ih =>
    rw [foldl_rejectmax_succ]
    rcases Nat.lt_succ_iff_lt_or_eq.mp hk with h | rfl
    · split
      · omega
      · exact ih h
    · rw [ht, if_pos rfl]

lemma foldl_rejectmax_spec {r : List Bool} {n : ℕ}
    (h : ∃ k, k < n ∧ r.getD k false = true) :
    (List.range n).foldl (fun acc k => if r.getD k false then k else acc) 0 < n
    ∧ r.getD ((List.range n).foldl (fun acc k => if r.getD k false then k else acc) 0)
        false = true := by
  induction n with
  | zero => obtain ⟨k, hk, _⟩ := h; omega
  | succ n ih =>
    rw [foldl_rejectmax_succ]
    by_cases hn : r.getD n false = true
    · constructor
      · rw [hn, if_pos rfl]; omega
      · rw [hn, if_pos rfl]; exact hn
    · obtain ⟨k, hk, ht⟩ := h
      have hk' : k < n := by
        rcases Nat.lt_succ_iff_lt_or_eq.mp hk with h' | rfl
        · exact h'
        · exact absurd ht hn
      have := ih ⟨k, hk', ht⟩
      simp only [hn, if_false]
      exact ⟨Nat.lt_succ_of_lt this.1, this.2⟩

lemma any_iff_exists_getD (r : List Bool) :
    r.any (fun b => b) = true ↔ ∃ k, k < r.length ∧ r.getD k false = true := by
  rw [List.any_eq_true]
  constructor
  · rintro ⟨x, hx, hb⟩
    obtain ⟨k, hk, hkx⟩ := List.getElem_of_mem hx
    exact ⟨k, hk, by rw [List.getD_eq_getElem _ _ hk, hkx]; exact hb⟩
  · rintro ⟨k, hk, ht⟩
    refine ⟨r[k], List.getElem_mem hk, ?_⟩
    rw [List.getD_eq_getElem _ _ hk] at ht
    exact ht

lemma length_fillReject (r : List Bool) : (fillReject r).length = r.length := by
  unfold fillReject
  split <;> simp

lemma fillReject_getD_iff (r : List Bool) (k : ℕ) :
    (fillReject r).getD k false = true
      ↔ ∃ m, k ≤ m ∧ m < r.length ∧ r.getD m false = true := by
  unfold fillReject
  split
  case isTrue hany =>
    have hex := (any_iff_exists_getD r).mp hany
    have hspec := foldl_rejectmax_spec (n := r.length) hex
    by_cases hk : k < r.length
    · rw [getD_range_map_of_lt _ _ hk]
      constructor
      · intro hval
        split at hval
        · exact ⟨rejectmax r, by rw [rejectmax_eq_aux] at *; omega,
            by rw [rejectmax_eq_aux]; exact hspec.1, by rw [rejectmax_eq_aux]; exact hspec.2⟩
        · exact ⟨k, le_refl k, hk, hval⟩
      · rintro ⟨m, hkm, hm, ht⟩
        have hmM : m ≤ rejectmax r := by
          rw [rejectmax_eq_aux]; exact le_foldl_rejectmax hm ht
        split
        · rfl
        · have : k = rejectmax r := by omega
          rw [this, rejectmax_eq_aux]
          exact hspec.2
    · rw [List.getD_eq_default _ _ (by simp; omega)]
      constructor
      · intro h; exact absurd h (by simp)
      · rintro ⟨m, hkm, hm, _⟩; omega
  case isFalse hany =>
    constructor
    · intro ht
      by_cases hk : k < r.length
      · exact ⟨k, le_refl k, hk, ht⟩
      · rw [List.getD_eq_default _ _ (by omega)] at ht
        exact absurd ht (by simp)
    · rintro ⟨m, hkm, hm, ht⟩
      exact absurd ((any_iff_exists_getD r).mpr ⟨m, hm, ht⟩) hany

end SCP

namespace SCP

/-! ### The BH quantities in sorted order -/

lemma length_reject_sorted (alpha : ℚ) (pvals : List PVal) :
    (reject_sorted alpha pvals).length = pvals.length := by
  rw [reject_sorted, length_fillReject, List.length_zipWith, length_pvals_sorted,
    length_ecdffactor, min_self]

lemma length_pvals_corrected_raw (pvals : List PVal) :
    (pvals_corrected_raw pvals).length = pvals.length := by
  rw [pvals_corrected_raw, List.length_zipWith, length_pvals_sorted,
    length_ecdffactor, min_self]

lemma length_pvals_corrected (pvals : List PVal) :
    (pvals_corrected pvals).length = pvals.length := by
  rw [pvals_corrected, length_clip1, length_revMinAccum, length_pvals_corrected_raw]

lemma getD_pvals_corrected_raw {pvals : List PVal} {k : ℕ} (hk : k < pvals.length) :
    (pvals_corrected_raw pvals).getD k 0
      = (pvals_sorted pvals).getD k 0 / (((k : ℚ) + 1) / pvals.length) := by
  rw [pvals_corrected_raw,
    getD_zipWith_of_lt _ _ _ 0 0 0 (by rw [length_pvals_sorted]; exact hk)
      (by rw [length_ecdffactor]; exact hk),
    ecdffactor, getD_ecdf (by rw [length_nanToNum]; exact hk), length_nanToNum]

/-- Full characterization of the post-fill reject decisions in sorted order:
rank `k` is rejected iff some rank `m ≥ k` satisfies the raw BH inequality. -/
lemma reject_sorted_getD_iff (alpha : ℚ) (pvals : List PVal) (k : ℕ) :
    (reject_sorted alpha pvals).getD k false = true
      ↔ ∃ m, k ≤ m ∧ m < pvals.length ∧
          (pvals_sorted pvals).getD m 0 ≤ (((m : ℚ) + 1) / pvals.length) * alpha := by
  rw [reject_sorted, fillReject_getD_iff]
  constructor
  · rintro ⟨m, hkm, hm, ht⟩
    rw [List.length_zipWith, length_pvals_sorted, length_ecdffactor, min_self] at hm
    refine ⟨m, hkm, hm, ?_⟩
    rw [getD_zipWith_of_lt _ _ _ 0 0 false (by rw [length_pvals_sorted]; exact hm)
      (by rw [length_ecdffactor]; exact hm)] at ht
    have := of_decide_eq_true ht
    rw [ecdffactor, getD_ecdf (by rw [length_nanToNum]; exact hm),
      length_nanToNum] at this
    exact this
  · rintro ⟨m, hkm, hm, hle⟩
    refine ⟨m, hkm, ?_, ?_⟩
    · rw [List.length_zipWith, length_pvals_sorted, length_ecdffactor, min_self]
      exact hm
    · rw [getD_zipWith_of_lt _ _ _ 0 0 false (by rw [length_pvals_sorted]; exact hm)
        (by rw [length_ecdffactor]; exact hm)]
      apply decide_eq_true
      rw [ecdffactor, getD_ecdf (by rw [length_nanToNum]; exact hm), length_nanToNum]
      exact hle

/-- Monotonicity of the adjusted p-values along sorted ranks. -/
lemma pvals_corrected_mono {pvals : List PVal} {j k : ℕ} (hjk : j ≤ k)
    (hk : k < pvals.length) :
    (pvals_corrected pvals).getD j 0 ≤ (pvals_corrected pvals).getD k 0 := by
  have hj : j < pvals.length := lt_of_le_of_lt hjk hk
  have hlen : (revMinAccum (pvals_corrected_raw pvals)).length = pvals.length := by
    rw [length_revMinAccum, length_pvals_corrected_raw]
  rw [pvals_corrected, getD_clip1 (by rw [hlen]; exact hj),
    getD_clip1 (by rw [hlen]; exact hk)]
  exact clip1_mono_pt (revMinAccum_mono hjk (by rw [length_pvals_corrected_raw]; exact hk))

/-- If some rank `m ≥ k` satisfies the raw BH inequality and `alpha < 1`, then
the adjusted p-value at rank `k` is at most `alpha`. -/
lemma pvals_corrected_le_alpha {alpha : ℚ} {pvals : List PVal} {k m : ℕ}
    (hkm : k ≤ m) (hm : m < pvals.length) (halpha : alpha < 1)
    (hle : (pvals_sorted pvals).getD m 0 ≤ (((m : ℚ) + 1) / pvals.length) * alpha) :
    (pvals_corrected pvals).getD k 0 ≤ alpha := by
  have hk : k < pvals.length := lt_of_le_of_lt hkm hm
  have hn : (0 : ℚ) < pvals.length := by exact_mod_cast Nat.zero_lt_of_lt hm
  have he : (0 : ℚ) < ((m : ℚ) + 1) / pvals.length := by positivity
  have hraw : (pvals_corrected_raw pvals).getD m 0 ≤ alpha := by
    rw [getD_pvals_corrected_raw hm, div_le_iff₀ he]
    rw [mul_comm] at hle
    exact hle
  have hrev : (revMinAccum (pvals_corrected_raw pvals)).getD k 0 ≤ alpha :=
    le_trans (revMinAccum_le hkm (by rw [length_pvals_corrected_raw]; exact hm)) hraw
  rw [pvals_corrected, getD_clip1 (by
    rw [length_revMinAccum, length_pvals_corrected_raw]; exact hk)]
  split
  · linarith
  · exact hrev

/-! ### Gathering the outputs back through the sort -/

lemma length_benji_hoch_fst (alpha : ℚ) (pvals : List PVal) :
    (benji_hoch alpha pvals).1.length = pvals.length := by
  rw [benji_hoch, length_scatter, length_pvals_sortind]

lemma length_benji_hoch_snd (alpha : ℚ) (pvals : List PVal) :
    (benji_hoch alpha pvals).2.length = pvals.length := by
  rw [benji_hoch, length_scatter, length_pvals_sortind]

lemma length_bonfCore_fst (alpha : ℚ) (pvals : List PVal) :
    (bonfCore alpha pvals).1.length = pvals.length := by
  rw [bonfCore, length_scatter, length_pvals_sortind]

lemma length_bonfCore_snd (alpha : ℚ) (pvals : List PVal) :
    (bonfCore alpha pvals).2.length = pvals.length := by
  rw [bonfCore, length_scatter, length_pvals_sortind]

lemma benji_hoch_fst_getD {alpha : ℚ} {pvals : List PVal} {i : ℕ}
    (hi : i < pvals.length) :
    (benji_hoch alpha pvals).1.getD i 0
      = (pvals_corrected pvals).getD ((pvals_sortind pvals).indexOf i) 0 := by
  rw [benji_hoch]
  exact getD_scatter _ _ _ (by rw [length_pvals_sortind]; exact hi)

lemma benji_hoch_snd_getD {alpha : ℚ} {pvals : List PVal} {i : ℕ}
    (hi : i < pvals.length) :
    (benji_hoch alpha pvals).2.getD i false
      = (reject_sorted alpha pvals).getD ((pvals_sortind pvals).indexOf i) false := by
  rw [benji_hoch]
  exact getD_scatter _ _ _ (by rw [length_pvals_sortind]; exact hi)

lemma benji_hoch_fst_gather {alpha : ℚ} {pvals : List PVal} {k : ℕ}
    (hk : k < pvals.length) :
    (benji_hoch alpha pvals).1.getD ((pvals_sortind pvals).getD k 0) 0
      = (pvals_corrected pvals).getD k 0 := by
  have hk' : k < (nanToNum pvals).length := by rw [length_nanToNum]; exact hk
  have hlt : (pvals_sortind pvals).getD k 0 < pvals.length := by
    have := getD_argsort_lt (p := nanToNum pvals) hk'
    rw [length_nanToNum] at this
    exact this
  rw [benji_hoch_fst_getD hlt, pvals_sortind, indexOf_argsort_getD hk']

lemma benji_hoch_snd_gather {alpha : ℚ} {pvals : List PVal} {k : ℕ}
    (hk : k < pvals.length) :
    (benji_hoch alpha pvals).2.getD ((pvals_sortind pvals).getD k 0) false
      = (reject_sorted alpha pvals).getD k false := by
  have hk' : k < (nanToNum pvals).length := by rw [length_nanToNum]; exact hk
  have hlt : (pvals_sortind pvals).getD k 0 < pvals.length := by
    have := getD_argsort_lt (p := nanToNum pvals) hk'
    rw [length_nanToNum] at this
    exact this
  rw [benji_hoch_snd_getD hlt, pvals_sortind, indexOf_argsort_getD hk']

lemma indexOf_pvals_sortind_lt {pvals : List PVal} {i : ℕ} (hi : i < pvals.length) :
    (pvals_sortind pvals).indexOf i < pvals.length := by
  have := indexOf_argsort_lt (p := nanToNum pvals) (by rw [length_nanToNum]; exact hi)
  rw [length_nanToNum] at this
  exact this

/-! ### Elementwise characterization of bonf -/

lemma bonfCore_fst_getD {alpha : ℚ} {pvals : List PVal} {i : ℕ}
    (hi : i < pvals.length) :
    (bonfCore alpha pvals).1.getD i 0
      = (nanToNum pvals).getD i 0 * (pvals.length : ℚ) := by
  have hidx := indexOf_pvals_sortind_lt hi
  rw [bonfCore]
  rw [getD_scatter _ _ _ (by rw [length_pvals_sortind]; exact hi)]
  rw [pvals_correctedBonf, getD_map_of_lt _ _ 0 _ (by
    rw [length_pvals_sorted]; exact hidx)]
  rw [pvals_sorted_getD_indexOf hi, length_nanToNum]

lemma bonfCore_snd_getD {alpha : ℚ} {pvals : List PVal} {i : ℕ}
    (hi : i < pvals.length) :
    (bonfCore alpha pvals).2.getD i false
      = decide ((nanToNum pvals).getD i 0 ≤ alpha / (pvals.length : ℚ)) := by
  have hidx := indexOf_pvals_sortind_lt hi
  rw [bonfCore]
  rw [getD_scatter _ _ _ (by rw [length_pvals_sortind]; exact hi)]
  rw [rejectBonf, getD_map_of_lt _ _ 0 _ (by
    rw [length_pvals_sorted]; exact hidx)]
  rw [pvals_sorted_getD_indexOf hi, length_nanToNum]

end SCP

namespace SCP

/-! ### Tied p-values get identical results in sorted order -/

lemma pvals_sorted_nonneg {pvals : List PVal} (hnn : ∀ x ∈ nanToNum pvals, 0 ≤ x)
    {k : ℕ} (hk : k < pvals.length) : 0 ≤ (pvals_sorted pvals).getD k 0 := by
  have hk' : k < (pvals_sorted pvals).length := by rw [length_pvals_sorted]; exact hk
  rw [List.getD_eq_getElem _ _ hk']
  exact hnn _ ((pvals_sorted_perm pvals).mem_iff.mp (List.getElem_mem hk'))

lemma pvals_corrected_tie {pvals : List PVal} {j k : ℕ} (hjk : j ≤ k)
    (hk : k < pvals.length) (hnn : ∀ x ∈ nanToNum pvals, 0 ≤ x)
    (heq : (pvals_sorted pvals).getD j 0 = (pvals_sorted pvals).getD k 0) :
    (pvals_corrected pvals).getD j 0 = (pvals_corrected pvals).getD k 0 := by
  have hj : j < pvals.length := lt_of_le_of_lt hjk hk
  have hn : (0 : ℚ) < pvals.length := by exact_mod_cast Nat.zero_lt_of_lt hk
  have hrawlen : (pvals_corrected_raw pvals).length = pvals.length :=
    length_pvals_corrected_raw pvals
  have key : (revMinAccum (pvals_corrected_raw pvals)).getD k 0
      ≤ (revMinAccum (pvals_corrected_raw pvals)).getD j 0 := by
    apply le_revMinAccum (by rw [hrawlen]; exact hj)
    intro m hjm hm'
    rw [hrawlen] at hm'
    by_cases hkm : k ≤ m
    · exact revMinAccum_le hkm (by rw [hrawlen]; exact hm')
    · push_neg at hkm
      have e1 : (pvals_sorted pvals).getD j 0 ≤ (pvals_sorted pvals).getD m 0 :=
        pvals_sorted_mono hjm hm'
      have e2 : (pvals_sorted pvals).getD m 0 ≤ (pvals_sorted pvals).getD k 0 :=
        pvals_sorted_mono hkm.le hk
      have hmk : (pvals_sorted pvals).getD m 0 = (pvals_sorted pvals).getD k 0 :=
        le_antisymm e2 (heq ▸ e1)
      have hpos_m : (0 : ℚ) < ((m : ℚ) + 1) / pvals.length := by positivity
      have hdiv : ((m : ℚ) + 1) / pvals.length ≤ ((k : ℚ) + 1) / pvals.length :=
        (div_le_div_iff_of_pos_right hn).mpr (by exact_mod_cast Nat.succ_le_succ hkm.le)
      have hstep : (pvals_sorted pvals).getD k 0 / (((k : ℚ) + 1) / pvals.length)
          ≤ (pvals_sorted pvals).getD m 0 / (((m : ℚ) + 1) / pvals.length) := by
        rw [hmk]
        exact div_le_div_of_nonneg_left (pvals_sorted_nonneg hnn hk) hpos_m hdiv
      calc (revMinAccum (pvals_corrected_raw pvals)).getD k 0
          ≤ (pvals_corrected_raw pvals).getD k 0 :=
            revMinAccum_le (le_refl k) (by rw [hrawlen]; exact hk)
        _ = (pvals_sorted pvals).getD k 0 / (((k : ℚ) + 1) / pvals.length) :=
            getD_pvals_corrected_raw hk
        _ ≤ (pvals_sorted pvals).getD m 0 / (((m : ℚ) + 1) / pvals.length) := hstep
        _ = (pvals_corrected_raw pvals).getD m 0 := (getD_pvals_corrected_raw hm').symm
  refine le_antisymm (pvals_corrected_mono hjk hk) ?_
  have hrevlen : (revMinAccum (pvals_corrected_raw pvals)).length = pvals.length := by
    rw [length_revMinAccum, hrawlen]
  rw [pvals_corrected, getD_clip1 (by rw [hrevlen]; exact hk),
    getD_clip1 (by rw [hrevlen]; exact hj)]
  exact clip1_mono_pt key

lemma bool_eq_of_iff {a b : Bool} (h : a = true ↔ b = true) : a = b := by
  cases a <;> cases b <;> simp_all

lemma reject_sorted_tie {alpha : ℚ} {pvals : List PVal} {j k : ℕ} (hjk : j ≤ k)
    (hk : k < pvals.length) (hnn : ∀ x ∈ nanToNum pvals, 0 ≤ x)
    (heq : (pvals_sorted pvals).getD j 0 = (pvals_sorted pvals).getD k 0) :
    (reject_sorted alpha pvals).getD j false
      = (reject_sorted alpha pvals).getD k false := by
  apply bool_eq_of_iff
  rw [reject_sorted_getD_iff, reject_sorted_getD_iff]
  constructor
  · rintro ⟨m, hjm, hm, hle⟩
    by_cases hkm : k ≤ m
    · exact ⟨m, hkm, hm, hle⟩
    · push_neg at hkm
      refine ⟨k, le_refl k, hk, ?_⟩
      have hn : (0 : ℚ) < pvals.length := by exact_mod_cast Nat.zero_lt_of_lt hk
      have e1 : (pvals_sorted pvals).getD j 0 ≤ (pvals_sorted pvals).getD m 0 :=
        pvals_sorted_mono hjm hm
      have e2 : (pvals_sorted pvals).getD m 0 ≤ (pvals_sorted pvals).getD k 0 :=
        pvals_sorted_mono hkm.le hk
      have hmk : (pvals_sorted pvals).getD m 0 = (pvals_sorted pvals).getD k 0 :=
        le_antisymm e2 (heq ▸ e1)
      rcases le_or_lt 0 alpha with ha | ha
      · have hdiv : ((m : ℚ) + 1) / pvals.length ≤ ((k : ℚ) + 1) / pvals.length :=
          (div_le_div_iff_of_pos_right hn).mpr (by exact_mod_cast Nat.succ_le_succ hkm.le)
        calc (pvals_sorted pvals).getD k 0
            = (pvals_sorted pvals).getD m 0 := hmk.symm
          _ ≤ (((m : ℚ) + 1) / pvals.length) * alpha := hle
          _ ≤ (((k : ℚ) + 1) / pvals.length) * alpha :=
              mul_le_mul_of_nonneg_right hdiv ha
      · exfalso
        have hpos_m : (0 : ℚ) < ((m : ℚ) + 1) / pvals.length := by positivity
        have : (((m : ℚ) + 1) / pvals.length) * alpha < 0 :=
          mul_neg_of_pos_of_neg hpos_m ha
        have := lt_of_le_of_lt hle this
        exact absurd this (not_lt.mpr (pvals_sorted_nonneg hnn hm))
  · rintro ⟨m, hkm, hm, hle⟩
    exact ⟨m, le_trans hjk hkm, hm, hle⟩

/-! ### The sorted-order quantities depend only on the multiset of p-values -/

lemma pvals_sorted_congr {P Q : List PVal} (h : (nanToNum P).Perm (nanToNum Q)) :
    pvals_sorted P = pvals_sorted Q :=
  List.eq_of_perm_of_sorted
    ((pvals_sorted_perm P).trans (h.trans (pvals_sorted_perm Q).symm))
    (pairwise_pvals_sorted P) (pairwise_pvals_sorted Q)

lemma length_eq_of_nanPerm {P Q : List PVal} (h : (nanToNum P).Perm (nanToNum Q)) :
    P.length = Q.length := by
  have := h.length_eq
  rwa [length_nanToNum, length_nanToNum] at this

lemma pvals_corrected_congr {P Q : List PVal} (h : (nanToNum P).Perm (nanToNum Q)) :
    pvals_corrected P = pvals_corrected Q := by
  rw [pvals_corrected, pvals_corrected, pvals_corrected_raw, pvals_corrected_raw,
    pvals_sorted_congr h, ecdffactor, ecdffactor, h.length_eq]

lemma reject_sorted_congr (alpha : ℚ) {P Q : List PVal}
    (h : (nanToNum P).Perm (nanToNum Q)) :
    reject_sorted alpha P = reject_sorted alpha Q := by
  rw [reject_sorted, reject_sorted, pvals_sorted_congr h, ecdffactor, ecdffactor,
    h.length_eq]

/-- Outputs of `benji_hoch` attached to equal p-values in permuted inputs are
equal. -/
lemma benji_hoch_congr_getD {alpha : ℚ} {P Q : List PVal} {i j : ℕ}
    (h : (nanToNum P).Perm (nanToNum Q)) (hnn : ∀ x ∈ nanToNum P, 0 ≤ x)
    (hi : i < P.length) (hj : j < Q.length)
    (hval : (nanToNum P).getD i 0 = (nanToNum Q).getD j 0) :
    (benji_hoch alpha P).1.getD i 0 = (benji_hoch alpha Q).1.getD j 0 ∧
    (benji_hoch alpha P).2.getD i false = (benji_hoch alpha Q).2.getD j false := by
  have hlen : P.length = Q.length := length_eq_of_nanPerm h
  have hkPlt : (pvals_sortind P).indexOf i < P.length := indexOf_pvals_sortind_lt hi
  have hkQlt : (pvals_sortind Q).indexOf j < Q.length := indexOf_pvals_sortind_lt hj
  have hkQlt' : (pvals_sortind Q).indexOf j < P.length := by rw [hlen]; exact hkQlt
  have hsorted : pvals_sorted P = pvals_sorted Q := pvals_sorted_congr h
  have hvals : (pvals_sorted P).getD ((pvals_sortind P).indexOf i) 0
      = (pvals_sorted P).getD ((pvals_sortind Q).indexOf j) 0 := by
    rw [pvals_sorted_getD_indexOf hi, hval]
    conv_rhs => rw [hsorted]
    rw [pvals_sorted_getD_indexOf hj]
  constructor
  · rw [benji_hoch_fst_getD hi, benji_hoch_fst_getD hj, ← pvals_corrected_congr h]
    rcases le_total ((pvals_sortind P).indexOf i) ((pvals_sortind Q).indexOf j) with
      hle | hle
    · exact pvals_corrected_tie hle hkQlt' hnn hvals
    · exact (pvals_corrected_tie hle hkPlt hnn hvals.symm).symm
  · rw [benji_hoch_snd_getD hi, benji_hoch_snd_getD hj, ← reject_sorted_congr alpha h]
    rcases le_total ((pvals_sortind P).indexOf i) ((pvals_sortind Q).indexOf j) with
      hle | hle
    · exact reject_sorted_tie hle hkQlt' hnn hvals
    · exact (reject_sorted_tie hle hkPlt hnn hvals.symm).symm

end SCP

namespace SCP

/-! ### applyPerm -/

lemma length_applyPerm (σ : List ℕ) (l : List α) (d : α) :
    (applyPerm σ l d).length = σ.length := List.length_map _ _

lemma getD_applyPerm {σ : List ℕ} {i : ℕ} (l : List α) (d : α) (h : i < σ.length) :
    (applyPerm σ l d).getD i d = l.getD (σ.getD i 0) d := by
  rw [applyPerm, getD_map_of_lt _ _ 0 _ h]

lemma applyPerm_perm {σ : List ℕ} {l : List α} {d : α}
    (hσ : σ.Perm (List.range l.length)) : (applyPerm σ l d).Perm l := by
  have h := hσ.map (fun k => l.getD k d)
  rw [map_getD_range l d] at h
  exact h

lemma nanToNum_applyPerm {σ : List ℕ} {pvals : List PVal}
    (hσ : ∀ k ∈ σ, k < pvals.length) :
    nanToNum (applyPerm σ pvals none) = applyPerm σ (nanToNum pvals) 0 := by
  apply List.ext_getElem (by simp [nanToNum, applyPerm])
  intro i h1 h2
  have hi : i < σ.length := by simpa [nanToNum, applyPerm] using h1
  simp only [nanToNum, applyPerm, List.getElem_map]
  have hlt : σ[i] < pvals.length := hσ _ (List.getElem_mem hi)
  rw [List.getD_eq_getElem _ _ hlt, getD_map_of_lt _ _ (some 0) _ hlt,
    List.getD_eq_getElem _ _ hlt]

lemma nanToNum_nonneg_of_entries {pvals : List PVal}
    (hnn : ∀ v : ℚ, some v ∈ pvals → 0 ≤ v) : ∀ x ∈ nanToNum pvals, 0 ≤ x := by
  intro x hx
  rw [nanToNum, List.mem_map] at hx
  obtain ⟨p, hp, rfl⟩ := hx
  cases p with
  | none => norm_num
  | some v => simpa using hnn v hp

end SCP

namespace SCP

/-- C3: for every alpha and every p-value vector, the reject vector returned
by `benji_hoch` is upward closed in sorted rank order: if the entry at sorted
rank `k` is rejected then every entry at a smaller sorted rank `j ≤ k` is
also rejected. -/
theorem bh_reject_upward_closed (alpha : ℚ) (pvals : List PVal) (j k : ℕ)
    (hjk : j ≤ k) (hk : k < pvals.length)
    (hr : (benji_hoch alpha pvals).2.getD ((pvals_sortind pvals).getD k 0) false
      = true) :
    (benji_hoch alpha pvals).2.getD ((pvals_sortind pvals).getD j 0) false
      = true := by
  have hj : j < pvals.length := lt_of_le_of_lt hjk hk
  rw [benji_hoch_snd_gather hk] at hr
  rw [benji_hoch_snd_gather hj]
  rw [reject_sorted_getD_iff] at hr ⊢
  obtain ⟨m, hkm, hm, hle⟩ := hr
  exact ⟨m, le_trans hjk hkm, hm, hle⟩

theorem bh_reject_upward_closed_witness :
    (0 : ℕ) ≤ 1 ∧ 1 < ([some (1/100), some (3/100)] : List PVal).length ∧
    (benji_hoch (1/20) [some (1/100), some (3/100)]).2.getD
      ((pvals_sortind [some (1/100), some (3/100)]).getD 1 0) false = true ∧
    (benji_hoch (1/20) [some (1/100), some (3/100)]).2.getD
      ((pvals_sortind [some (1/100), some (3/100)]).getD 0 0) false = true :=
  ⟨by decide, by decide, by with_unfolding_all decide,
   bh_reject_upward_closed (1/20) [some (1/100), some (3/100)] 0 1 (by decide)
     (by decide) (by with_unfolding_all decide)⟩

/-- C4: for every p-value vector, the adjusted p-values returned by
`benji_hoch`, read in ascending order of the input p-values (through the sort
permutation), form a monotone non-decreasing sequence of rank. -/
theorem bh_adjusted_monotone_in_rank (alpha : ℚ) (pvals : List PVal) (j k : ℕ)
    (hjk : j ≤ k) (hk : k < pvals.length) :
    (benji_hoch alpha pvals).1.getD ((pvals_sortind pvals).getD j 0) 0
      ≤ (benji_hoch alpha pvals).1.getD ((pvals_sortind pvals).getD k 0) 0 := by
  have hj : j < pvals.length := lt_of_le_of_lt hjk hk
  rw [benji_hoch_fst_gather hj, benji_hoch_fst_gather hk]
  exact pvals_corrected_mono hjk hk

theorem bh_adjusted_monotone_in_rank_witness :
    (0 : ℕ) ≤ 1 ∧ 1 < ([some (7/10), some (1/100)] : List PVal).length ∧
    (benji_hoch (1/20) [some (7/10), some (1/100)]).1.getD
      ((pvals_sortind [some (7/10), some (1/100)]).getD 0 0) 0
    ≤ (benji_hoch (1/20) [some (7/10), some (1/100)]).1.getD
      ((pvals_sortind [some (7/10), some (1/100)]).getD 1 0) 0 :=
  ⟨by decide, by decide,
   bh_adjusted_monotone_in_rank (1/20) [some (7/10), some (1/100)] 0 1 (by decide)
     (by decide)⟩

/-- C5: for both correction policies, for every alpha in (0,1), every p-value
vector and every index `i`, if `reject[i]` is true then `adjustedPValue[i]`
is at most alpha (exactly, in the rational model). -/
theorem reject_imp_adjusted_le_alpha (alpha : ℚ) (pvals : List PVal) (i : ℕ)
    (h0 : 0 < alpha) (h1 : alpha < 1) :
    ((benji_hoch alpha pvals).2.getD i false = true →
      (benji_hoch alpha pvals).1.getD i 0 ≤ alpha) ∧
    ((bonfCore alpha pvals).2.getD i false = true →
      (bonfCore alpha pvals).1.getD i 0 ≤ alpha) := by
  constructor
  · intro hr
    rcases lt_or_ge i pvals.length with hi | hi
    · rw [benji_hoch_snd_getD hi, reject_sorted_getD_iff] at hr
      rw [benji_hoch_fst_getD hi]
      obtain ⟨m, hkm, hm, hle⟩ := hr
      exact pvals_corrected_le_alpha hkm hm h1 hle
    · have hd : (benji_hoch alpha pvals).2.getD i false = false :=
        List.getD_eq_default _ _ (by rw [length_benji_hoch_snd]; omega)
      rw [hd] at hr
      exact absurd hr (by decide)
  · intro hr
    rcases lt_or_ge i pvals.length with hi | hi
    · rw [bonfCore_snd_getD hi] at hr
      rw [bonfCore_fst_getD hi]
      have hle := of_decide_eq_true hr
      have hn : (0 : ℚ) < pvals.length := by exact_mod_cast Nat.zero_lt_of_lt hi
      rw [le_div_iff₀ hn] at hle
      exact hle
    · have hd : (bonfCore alpha pvals).2.getD i false = false :=
        List.getD_eq_default _ _ (by rw [length_bonfCore_snd]; omega)
      rw [hd] at hr
      exact absurd hr (by decide)

theorem reject_imp_adjusted_le_alpha_witness :
    (0 : ℚ) < 1/20 ∧ (1 : ℚ)/20 < 1 ∧
    (benji_hoch (1/20) [some (1/100), some (3/100)]).1.getD 0 0 ≤ 1/20 ∧
    (bonfCore (1/20) [some (1/100), some (3/100)]).1.getD 0 0 ≤ 1/20 :=
  ⟨by norm_num, by norm_num,
   (reject_imp_adjusted_le_alpha (1/20) [some (1/100), some (3/100)] 0
     (by norm_num) (by norm_num)).1 (by with_unfolding_all decide),
   (reject_imp_adjusted_le_alpha (1/20) [some (1/100), some (3/100)] 0
     (by norm_num) (by norm_num)).2 (by with_unfolding_all decide)⟩

/-- C6: NaN entries are replaced with 1.0 before correction and (for alpha
in the documented range, alpha < 1) are never rejected by `benji_hoch`; the
concrete instance alpha = 0.05, pvals = [NaN, 0.01] is the witness. -/
theorem nan_entries_never_rejected (alpha : ℚ) (pvals : List PVal) (i : ℕ)
    (halpha : alpha < 1) (hi : i < pvals.length)
    (hnan : pvals.getD i (some 0) = none) :
    (benji_hoch alpha pvals).2.getD i false = false := by
  cases hb : (benji_hoch alpha pvals).2.getD i false
  · rfl
  · exfalso
    rw [benji_hoch_snd_getD hi, reject_sorted_getD_iff] at hb
    obtain ⟨m, hkm, hm, hle⟩ := hb
    have hone : (pvals_sorted pvals).getD ((pvals_sortind pvals).indexOf i) 0 = 1 := by
      rw [pvals_sorted_getD_indexOf hi, getD_nanToNum hi, hnan]
      rfl
    have hmono : (1 : ℚ) ≤ (pvals_sorted pvals).getD m 0 := by
      rw [← hone]
      exact pvals_sorted_mono hkm hm
    have hn : (0 : ℚ) < pvals.length := by exact_mod_cast Nat.zero_lt_of_lt hm
    have he1 : ((m : ℚ) + 1) / pvals.length ≤ 1 := by
      rw [div_le_one hn]
      exact_mod_cast Nat.succ_le_of_lt hm
    have he0 : (0 : ℚ) < ((m : ℚ) + 1) / pvals.length := by positivity
    have hlt : (((m : ℚ) + 1) / pvals.length) * alpha < 1 := by
      nlinarith [mul_pos he0 (sub_pos.mpr halpha)]
    exact absurd (le_trans hmono hle) (not_le.mpr hlt)

theorem nan_entries_never_rejected_witness :
    (1 : ℚ)/20 < 1 ∧ 0 < ([none, some (1/100)] : List PVal).length ∧
    ([none, some (1/100)] : List PVal).getD 0 (some 0) = none ∧
    (benji_hoch (1/20) [none, some (1/100)]).2.getD 0 false = false :=
  ⟨by norm_num, by decide, rfl,
   nan_entries_never_rejected (1/20) [none, some (1/100)] 0 (by norm_num)
     (by decide) rfl⟩

end SCP

namespace SCP

/-- C7: order-invariance round trip: for every p-value vector (entries in the
data-model range, hence nonnegative) and every permutation σ of its indices,
running `benji_hoch` or the Bonferroni correction on the σ-permuted input
yields exactly the σ-permuted adjusted and reject vectors of the original
call, ties included. -/
theorem correction_order_invariant (alpha : ℚ) (pvals : List PVal) (σ : List ℕ)
    (hσ : σ.Perm (List.range pvals.length))
    (hval : ∀ v : ℚ, some v ∈ pvals → 0 ≤ v) :
    benji_hoch alpha (applyPerm σ pvals none)
      = (applyPerm σ (benji_hoch alpha pvals).1 0,
         applyPerm σ (benji_hoch alpha pvals).2 false)
    ∧ bonfCore alpha (applyPerm σ pvals none)
      = (applyPerm σ (bonfCore alpha pvals).1 0,
         applyPerm σ (bonfCore alpha pvals).2 false) := by
  have hσlen : σ.length = pvals.length := by simpa using hσ.length_eq
  have hmem : ∀ k ∈ σ, k < pvals.length := fun k hk =>
    List.mem_range.mp (hσ.mem_iff.mp hk)
  have hPσlen : (applyPerm σ pvals none).length = pvals.length := by
    rw [length_applyPerm, hσlen]
  have hnan : nanToNum (applyPerm σ pvals none) = applyPerm σ (nanToNum pvals) 0 :=
    nanToNum_applyPerm hmem
  have hperm : (nanToNum (applyPerm σ pvals none)).Perm (nanToNum pvals) := by
    rw [hnan]
    exact applyPerm_perm (by rw [length_nanToNum]; exact hσ)
  have hnnQ : ∀ x ∈ nanToNum pvals, 0 ≤ x := nanToNum_nonneg_of_entries hval
  have hnnP : ∀ x ∈ nanToNum (applyPerm σ pvals none), 0 ≤ x := fun x hx =>
    hnnQ x (hperm.mem_iff.mp hx)
  constructor
  · rw [Prod.ext_iff]
    constructor
    · apply List.ext_getElem
      · rw [length_benji_hoch_fst, hPσlen, length_applyPerm, hσlen]
      · intro i h1 h2
        have hiσ : i < σ.length := by
          rw [length_benji_hoch_fst, hPσlen, ← hσlen] at h1
          exact h1
        have hσi : σ[i] < pvals.length := hmem _ (List.getElem_mem hiσ)
        have hgd : σ.getD i 0 = σ[i] := List.getD_eq_getElem _ _ hiσ
        rw [← List.getD_eq_getElem (benji_hoch alpha (applyPerm σ pvals none)).1 0 h1,
          ← List.getD_eq_getElem (applyPerm σ (benji_hoch alpha pvals).1 0) 0 h2,
          getD_applyPerm _ _ hiσ, hgd]
        exact (benji_hoch_congr_getD hperm hnnP
          (by rw [hPσlen, ← hσlen]; exact hiσ) hσi
          (by rw [hnan, getD_applyPerm _ _ hiσ, hgd])).1
    · apply List.ext_getElem
      · rw [length_benji_hoch_snd, hPσlen, length_applyPerm, hσlen]
      · intro i h1 h2
        have hiσ : i < σ.length := by
          rw [length_benji_hoch_snd, hPσlen, ← hσlen] at h1
          exact h1
        have hσi : σ[i] < pvals.length := hmem _ (List.getElem_mem hiσ)
        have hgd : σ.getD i 0 = σ[i] := List.getD_eq_getElem _ _ hiσ
        rw [← List.getD_eq_getElem (benji_hoch alpha (applyPerm σ pvals none)).2
            false h1,
          ← List.getD_eq_getElem (applyPerm σ (benji_hoch alpha pvals).2 false)
            false h2,
          getD_applyPerm _ _ hiσ, hgd]
        exact (benji_hoch_congr_getD hperm hnnP
          (by rw [hPσlen, ← hσlen]; exact hiσ) hσi
          (by rw [hnan, getD_applyPerm _ _ hiσ, hgd])).2
  · rw [Prod.ext_iff]
    constructor
    · apply List.ext_getElem
      · rw [length_bonfCore_fst, hPσlen, length_applyPerm, hσlen]
      · intro i h1 h2
        have hiσ : i < σ.length := by
          rw [length_bonfCore_fst, hPσlen, ← hσlen] at h1
          exact h1
        have hσi : σ[i] < pvals.length := hmem _ (List.getElem_mem hiσ)
        have hgd : σ.getD i 0 = σ[i] := List.getD_eq_getElem _ _ hiσ
        rw [← List.getD_eq_getElem (bonfCore alpha (applyPerm σ pvals none)).1 0 h1,
          ← List.getD_eq_getElem (applyPerm σ (bonfCore alpha pvals).1 0) 0 h2,
          getD_applyPerm _ _ hiσ, hgd,
          bonfCore_fst_getD (by rw [hPσlen, ← hσlen]; exact hiσ),
          bonfCore_fst_getD hσi,
          hnan, getD_applyPerm _ _ hiσ, hgd, hPσlen]
    · apply List.ext_getElem
      · rw [length_bonfCore_snd, hPσlen, length_applyPerm, hσlen]
      · intro i h1 h2
        have hiσ : i < σ.length := by
          rw [length_bonfCore_snd, hPσlen, ← hσlen] at h1
          exact h1
        have hσi : σ[i] < pvals.length := hmem _ (List.getElem_mem hiσ)
        have hgd : σ.getD i 0 = σ[i] := List.getD_eq_getElem _ _ hiσ
        rw [← List.getD_eq_getElem (bonfCore alpha (applyPerm σ pvals none)).2
            false h1,
          ← List.getD_eq_getElem (applyPerm σ (bonfCore alpha pvals).2 false)
            false h2,
          getD_applyPerm _ _ hiσ, hgd,
          bonfCore_snd_getD (by rw [hPσlen, ← hσlen]; exact hiσ),
          bonfCore_snd_getD hσi,
          hnan, getD_applyPerm _ _ hiσ, hgd, hPσlen]

theorem correction_order_invariant_witness :
    ([1, 0] : List ℕ).Perm
      (List.range ([none, some (1/100)] : List PVal).length) ∧
    benji_hoch (1/20) (applyPerm [1, 0] [none, some (1/100)] none)
      = (applyPerm [1, 0] (benji_hoch (1/20) [none, some (1/100)]).1 0,
         applyPerm [1, 0] (benji_hoch (1/20) [none, some (1/100)]).2 false) ∧
    bonfCore (1/20) (applyPerm [1, 0] [none, some (1/100)] none)
      = (applyPerm [1, 0] (bonfCore (1/20) [none, some (1/100)]).1 0,
         applyPerm [1, 0] (bonfCore (1/20) [none, some (1/100)]).2 false) := by
  have hperm : ([1, 0] : List ℕ).Perm
      (List.range ([none, some (1/100)] : List PVal).length) := by
    have : List.range ([none, some (1/100)] : List PVal).length = [0, 1] := rfl
    rw [this]
    exact List.Perm.swap 0 1 []
  have h := correction_order_invariant (1/20) [none, some (1/100)] [1, 0] hperm
    (by
      intro v hv
      rcases List.mem_cons.mp hv with h1 | hv2
      · exact absurd h1 (by simp)
      · rcases List.mem_cons.mp hv2 with h2 | h3
        · have := Option.some.inj h2
          rw [this]
          norm_num
        · simp at h3)
  exact ⟨hperm, h.1, h.2⟩

end SCP

namespace SCP

/-- C1 counterexample: at pvals = [0.6, 0.7], alpha = 0.05, the Bonferroni
adjusted p-value of entry 0 is 1.2, not min(1.0, 0.6 × 2) = 1.0, so `bonf`
does not clip to 1.0. -/
theorem bonf_adjusted_not_min_clip_cex :
    (bonfCore (1/20) [some (6/10), some (7/10)]).1.getD 0 0 = 6/5 ∧
    ¬ ((bonfCore (1/20) [some (6/10), some (7/10)]).1.getD 0 0
        = min 1 ((6/10 : ℚ) * 2)) := by
  constructor
  · with_unfolding_all decide
  · with_unfolding_all decide

/-- C1 (amended): `bonf` returns the unclipped adjusted p-value
`p_i × n` (which can exceed 1.0), and rejects exactly when `p_i ≤ alpha/n`. -/
theorem bonf_adjusted_unclipped (alpha : ℚ) (pvals : List PVal) (i : ℕ)
    (hi : i < pvals.length) :
    (bonfCore alpha pvals).1.getD i 0
      = (nanToNum pvals).getD i 0 * (pvals.length : ℚ) ∧
    ((bonfCore alpha pvals).2.getD i false = true
      ↔ (nanToNum pvals).getD i 0 ≤ alpha / (pvals.length : ℚ)) := by
  refine ⟨bonfCore_fst_getD hi, ?_⟩
  rw [bonfCore_snd_getD hi]
  exact ⟨of_decide_eq_true, decide_eq_true⟩

theorem bonf_adjusted_unclipped_witness :
    0 < ([some (6/10), some (7/10)] : List PVal).length ∧
    (bonfCore (1/20) [some (6/10), some (7/10)]).1.getD 0 0
      = (nanToNum [some (6/10), some (7/10)]).getD 0 0
          * (([some (6/10), some (7/10)] : List PVal).length : ℚ) :=
  ⟨by decide,
   (bonf_adjusted_unclipped (1/20) [some (6/10), some (7/10)] 0 (by decide)).1⟩

/-- C2 counterexample: with meanDiff = [0.1], Wilcoxon p = [1], observed
percent-variance = [0] and a null column with median 1, the feature is
declared CCD (`ccdtranscript` = [true]) even though the Bonferroni-adjusted
test does not reject and the observed value does not exceed the null median
(`gtpass_eq_percvar_adj` = [false]); the declared flag is not the three-way
conjunction. -/
theorem ccdtranscript_not_conjunctive_cex :
    ccdtranscript [1/10] = [true] ∧
    gtpass_eq_percvar_adj [some 1] [0] [[1]] = [false] ∧
    (bonfCore alpha_ccd [some 1]).2 = [false] := by
  refine ⟨?_, ?_, ?_⟩
  · with_unfolding_all decide
  · with_unfolding_all decide
  · with_unfolding_all decide

/-- C2 (amended): the script computes the three conditions, but the declared
CCD flag `ccdtranscript` equals the meanDiff condition alone
(`meanDiff[f] > 0.08`); the conjunction of the adjusted-p rejection and the
null-median exceedance is kept in the separate variable
`gtpass_eq_percvar_adj` and is not combined with the meanDiff gate. -/
theorem ccdtranscript_meandiff_only (mean_diff_from_rng : List ℚ)
    (wilcoxp : List PVal) (percvar : List ℚ) (rng : List (List ℚ)) (f : ℕ)
    (hf : f < mean_diff_from_rng.length) (hfw : f < wilcoxp.length)
    (hfp : f < percvar.length) :
    ((ccdtranscript mean_diff_from_rng).getD f false = true
      ↔ MIN_MEAN_PERCVAR_DIFF_FROM_RANDOM < mean_diff_from_rng.getD f 0) ∧
    (gtpass_eq_percvar_adj wilcoxp percvar rng).getD f false
      = ((bonfCore alpha_ccd wilcoxp).2.getD f false
          && decide (npMedian (matCol rng f) < percvar.getD f 0)) := by
  constructor
  · rw [ccdtranscript, pass_meandiff, getD_map_of_lt _ _ 0 _ hf]
    exact ⟨of_decide_eq_true, decide_eq_true⟩
  · rw [gtpass_eq_percvar_adj,
      getD_zipWith_of_lt (fun b c => b && c) _ _ false false false
        (by rw [length_bonfCore_snd]; exact hfw)
        (by rw [List.length_map, List.length_range]; exact hfp),
      getD_range_map_of_lt _ _ hfp]

theorem ccdtranscript_meandiff_only_witness :
    (((ccdtranscript [1/10]).getD 0 false = true
      ↔ MIN_MEAN_PERCVAR_DIFF_FROM_RANDOM < ([1/10] : List ℚ).getD 0 0) ∧
    (gtpass_eq_percvar_adj [some 1] [0] [[1]]).getD 0 false
      = ((bonfCore alpha_ccd [some 1]).2.getD 0 false
          && decide (npMedian (matCol [[1]] 0) < ([0] : List ℚ).getD 0 0))) :=
  ccdtranscript_meandiff_only [1/10] [some 1] [0] [[1]] 0 (by decide) (by decide)
    (by decide)

/-- C8 counterexample: with alpha = 2 (outside (0,1)) both corrections
accept the input and return a result instead of failing with a validation
error, and `benji_hoch` on the empty vector returns empty vectors. -/
theorem no_validation_cex :
    benji_hoch 2 [some (1/2)] = ([1/2], [true]) ∧
    bonf 2 [some (1/2)] = Except.ok ([1/2], [true]) ∧
    benji_hoch (1/20) ([] : List PVal) = ([], []) := by
  refine ⟨?_, ?_, rfl⟩
  · with_unfolding_all decide
  · have h : ([some ((1:ℚ)/2)] : List PVal).length ≠ 0 := by decide
    rw [bonf, if_neg h]
    congr 1
    with_unfolding_all decide

/-- C8 (amended): neither function validates its inputs. `benji_hoch`
accepts any alpha and also the empty vector (returning empty outputs);
`bonf` accepts any alpha and fails only on the empty vector — with a
`ZeroDivisionError` from `alpha / float(0)`, not an input-validation error. -/
theorem no_input_validation (alpha : ℚ) (pvals : List PVal) :
    benji_hoch alpha [] = ([], []) ∧
    (bonf alpha pvals
        = Except.error "ZeroDivisionError: float division by zero"
      ↔ pvals = []) ∧
    (pvals ≠ [] → bonf alpha pvals = Except.ok (bonfCore alpha pvals)) := by
  refine ⟨rfl, ?_, ?_⟩
  · rw [bonf]
    split
    case isTrue h => exact iff_of_true rfl (List.length_eq_zero.mp h)
    case isFalse h =>
      apply iff_of_false
      · intro hcontr
        exact Except.noConfusion hcontr
      · intro hnil
        exact h (by rw [hnil]; rfl)
  · intro hne
    rw [bonf, if_neg (fun h0 => hne (List.length_eq_zero.mp h0))]

theorem no_input_validation_witness :
    bonf 2 [some (1/2)] = Except.ok (bonfCore 2 [some (1/2)]) ∧
    benji_hoch 2 [] = ([], []) :=
  ⟨(no_input_validation 2 [some (1/2)]).2.2 (List.cons_ne_nil _ _),
   (no_input_validation 2 []).1⟩

end SCP

namespace SCP

lemma pvals_corrected_getD_mem_unit {pvals : List PVal}
    (hnn : ∀ x ∈ nanToNum pvals, 0 ≤ x) (k : ℕ) :
    0 ≤ (pvals_corrected pvals).getD k 0 ∧ (pvals_corrected pvals).getD k 0 ≤ 1 := by
  rcases lt_or_ge k pvals.length with hk | hk
  · have hrevlen : (revMinAccum (pvals_corrected_raw pvals)).length = pvals.length := by
      rw [length_revMinAccum, length_pvals_corrected_raw]
    have hy0 : 0 ≤ (revMinAccum (pvals_corrected_raw pvals)).getD k 0 := by
      apply le_revMinAccum (by rw [length_pvals_corrected_raw]; exact hk)
      intro m hkm hm
      rw [length_pvals_corrected_raw] at hm
      rw [getD_pvals_corrected_raw hm]
      have hq := pvals_sorted_nonneg hnn hm
      have hn : (0 : ℚ) < pvals.length := by exact_mod_cast Nat.zero_lt_of_lt hm
      positivity
    have hclip : (pvals_corrected pvals).getD k 0
        = if 1 < (revMinAccum (pvals_corrected_raw pvals)).getD k 0 then 1
          else (revMinAccum (pvals_corrected_raw pvals)).getD k 0 := by
      rw [pvals_corrected, getD_clip1 (by rw [hrevlen]; exact hk)]
    rcases lt_or_le 1 ((revMinAccum (pvals_corrected_raw pvals)).getD k 0) with
      hgt | hle2
    · rw [hclip, if_pos hgt]
      norm_num
    · rw [hclip, if_neg (not_lt.mpr hle2)]
      exact ⟨hy0, hle2⟩
  · rw [List.getD_eq_default _ _ (by rw [length_pvals_corrected]; omega)]
    norm_num

/-- C9: for alpha in (0,1) and inputs whose entries are each in [0,1] or NaN,
`benji_hoch` returns adjusted p-values that all lie in [0,1], and both output
vectors have the same length as the input. -/
theorem bh_adjusted_in_unit_interval (alpha : ℚ) (pvals : List PVal)
    (h0 : 0 < alpha) (h1 : alpha < 1)
    (hin : ∀ v : ℚ, some v ∈ pvals → 0 ≤ v ∧ v ≤ 1) :
    (benji_hoch alpha pvals).1.length = pvals.length ∧
    (benji_hoch alpha pvals).2.length = pvals.length ∧
    ∀ x ∈ (benji_hoch alpha pvals).1, 0 ≤ x ∧ x ≤ 1 := by
  refine ⟨length_benji_hoch_fst alpha pvals, length_benji_hoch_snd alpha pvals, ?_⟩
  intro x hx
  obtain ⟨ix, hixlt, heq⟩ := List.getElem_of_mem hx
  have hix : ix < pvals.length := by
    rw [← length_benji_hoch_fst alpha pvals]
    exact hixlt
  have hval : x = (benji_hoch alpha pvals).1.getD ix 0 := by
    rw [List.getD_eq_getElem _ _ hixlt, heq]
  rw [hval, benji_hoch_fst_getD hix]
  exact pvals_corrected_getD_mem_unit
    (nanToNum_nonneg_of_entries (fun v hv => (hin v hv).1)) _

theorem bh_adjusted_in_unit_interval_witness :
    (0 : ℚ) < 1/20 ∧ (1 : ℚ)/20 < 1 ∧
    (benji_hoch (1/20) [some (1/2), none]).1.length
      = ([some (1/2), none] : List PVal).length ∧
    (benji_hoch (1/20) [some (1/2), none]).2.length
      = ([some (1/2), none] : List PVal).length ∧
    ∀ x ∈ (benji_hoch (1/20) [some (1/2), none]).1, 0 ≤ x ∧ x ≤ 1 := by
  have h := bh_adjusted_in_unit_interval (1/20) [some (1/2), none]
    (by norm_num) (by norm_num)
    (by
      intro v hv
      rcases List.mem_cons.mp hv with h1 | hv2
      · have := Option.some.inj h1
        rw [this]
        norm_num
      · rcases List.mem_cons.mp hv2 with h2 | h3
        · exact absurd h2 (by simp)
        · simp at h3)
  exact ⟨by norm_num, by norm_num, h.1, h.2.1, h.2.2⟩

/-! ### C10: no mutation of the caller's array -/

lemma getD_append_frame {st : NpHeap} {r : ℕ} (hr : r < st.length)
    (a : List PVal) : (st ++ [a]).getD r [] = st.getD r [] := by
  have h1 : r < (st ++ [a]).length := by rw [List.length_append]; omega
  rw [List.getD_eq_getElem _ _ h1, List.getD_eq_getElem _ _ hr,
    List.getElem_append_left]

lemma getD_heap_frame {st : NpHeap} {r : ℕ} (hr : r < st.length)
    (a b c : List PVal) :
    (((st ++ [a]) ++ [b]).set (st ++ [a]).length c).getD r [] = st.getD r [] := by
  have h1 : r < ((st ++ [a]) ++ [b]).length := by simp [List.length_append]; omega
  have h2 : r < (((st ++ [a]) ++ [b]).set (st ++ [a]).length c).length := by
    rw [List.length_set]
    exact h1
  have hne : (st ++ [a]).length ≠ r := by rw [List.length_append]; omega
  rw [List.getD_eq_getElem _ _ h2, List.getElem_set_ne hne,
    ← List.getD_eq_getElem ((st ++ [a]) ++ [b]) [] h1,
    getD_append_frame (by rw [List.length_append]; omega) b,
    getD_append_frame hr a]

/-- C10: neither `benji_hoch` nor `bonf` mutates its `pvals` argument: in the
heap-passing model the caller's array (which may hold NaN entries) is
unchanged after the call — the NaN-to-1.0 replacement happens on the fresh
`np.nan_to_num` copy, and the only writes target fresh `np.empty_like`
arrays. -/
theorem caller_pvals_array_unchanged (alpha : ℚ) (st : NpHeap) (r : ℕ)
    (hr : r < st.length) :
    (benji_hochST alpha st r).1.getD r [] = st.getD r [] ∧
    (bonfST alpha st r).1.getD r [] = st.getD r [] := by
  constructor
  · exact getD_heap_frame hr _ _ _
  · rw [bonfST]
    dsimp only
    split
    · exact getD_append_frame hr _
    · exact getD_heap_frame hr _ _ _

theorem caller_pvals_array_unchanged_witness :
    0 < ([[none, some (1/2)]] : NpHeap).length ∧
    (benji_hochST (1/20) [[none, some (1/2)]] 0).1.getD 0 []
      = [none, some (1/2)] ∧
    (bonfST (1/20) [[none, some (1/2)]] 0).1.getD 0 [] = [none, some (1/2)] := by
  have h := caller_pvals_array_unchanged (1/20) [[none, some (1/2)]] 0 (by decide)
  exact ⟨by decide, h.1, h.2⟩

end SCP
